import Mathlib

/-!
Shallow embedding of the statistical core of matplotlib-hep
(src/matplotlib_hep/__init__.py): bin-count estimation (calc_nbins),
Poisson interval estimation (poisson_limits), histogram building
(histpoints), and the pull computations of plot_pull / plot_data_pull.

Samples and bin edges are modelled as lists of rationals (exact stand-ins
for the floating point inputs); derived quantities that involve square
roots, the Freedman-Diaconis power, or the external gamma quantile are
modelled over the reals.  scipy.stats.gamma.ppf is an external library
function, so it enters the model as an explicit function parameter
`ppf : ℝ → ℝ → ℝ` (first argument: probability, second: shape).
NumPy divisions that produce inf/nan (division by a zero error) are
modelled with `Option ℝ`, `none` standing for the non-finite result.
-/

namespace MatplotlibHep

/-- Model of python `max(x)` on a nonempty list (0 for the empty list,
which the source never feeds it). -/
def listMax : List ℚ → ℚ
  | [] => 0
  | a :: as => as.foldl max a

/-- Model of python `min(x)`. -/
def listMin : List ℚ → ℚ
  | [] => 0
  | a :: as => as.foldl min a

/-- Model of `np.percentile(x, q)` with the default linear interpolation:
sort the sample, take `h = (n-1)·q/100`, and linearly interpolate between
the neighbouring order statistics. -/
def percentile (xs : List ℚ) (q : ℚ) : ℚ :=
  let s := xs.insertionSort (· ≤ ·)
  let h : ℚ := ((s.length : ℚ) - 1) * q / 100
  let i : ℕ := (⌊h⌋).toNat
  let lo := s.getD i 0
  let hi := s.getD (i + 1) lo
  lo + (h - (i : ℚ)) * (hi - lo)

/-- Model of `calc_nbins(x, maximum)`:
`n = (max x - min x) / (2 · len(x)^(-1/3) · (Q75 - Q25))`, returning
`floor (min n maximum)`.  The power is the real `rpow`. -/
noncomputable def calc_nbins (x : List ℚ) (maximum : ℕ) : ℤ :=
  let range : ℝ := ((listMax x - listMin x : ℚ) : ℝ)
  let iqr : ℝ := ((percentile x 75 - percentile x 25 : ℚ) : ℝ)
  let n : ℝ := range / (2 * (x.length : ℝ) ^ (-(1 / 3) : ℝ) * iqr)
  ⌊min n (maximum : ℝ)⌋

/-- Model of the vectorized masked assignment `lower[N == 0] = 0`:
entries of `lower` at indices where the count is zero are replaced by 0. -/
def clampZero (N : List ℕ) (lower : List ℝ) : List ℝ :=
  (N.zip lower).map (fun p => if p.1 = 0 then 0 else p.2)

/-- Model of `poisson_limits(N, kind, confidence)`.  The `gamma` branch
uses the external `ppf` parameter for `scipy.stats.gamma.ppf`; the `sqrt`
branch uses the real square root; any other kind raises `ValueError`,
modelled as `Except.error`.  Both branches clamp the lower quantile to 0
at zero counts and return `(N - lower, upper - N)`. -/
noncomputable def poisson_limits (ppf : ℝ → ℝ → ℝ) (N : List ℕ) (kind : String)
    (confidence : ℝ) : Except String (List ℝ × List ℝ) :=
  if kind = "gamma" then
    let alpha := 1 - confidence
    let lower := clampZero N (N.map (fun n : ℕ => ppf (alpha / 2) (n : ℝ)))
    let upper := N.map (fun n : ℕ => ppf (1 - alpha / 2) ((n : ℝ) + 1))
    Except.ok ((N.zip lower).map (fun p => (p.1 : ℝ) - p.2),
               (N.zip upper).map (fun p => p.2 - (p.1 : ℝ)))
  else if kind = "sqrt" then
    let err := N.map (fun n : ℕ => Real.sqrt (n : ℝ))
    let lower := clampZero N ((N.zip err).map (fun p => (p.1 : ℝ) - p.2))
    let upper := (N.zip err).map (fun p => (p.1 : ℝ) + p.2)
    Except.ok ((N.zip lower).map (fun p => (p.1 : ℝ) - p.2),
               (N.zip upper).map (fun p => p.2 - (p.1 : ℝ)))
  else
    Except.error ("Unknown errorbar kind: " ++ kind)

/-- Bin specification for `histpoints`: an explicit bin count (numpy
builds equal-width edges over the data range) or explicit edges. -/
inductive BinSpec
  | count (n : ℕ)
  | edges (es : List ℚ)

/-- Horizontal-error mode of `histpoints`. -/
inductive XerrSpec
  | omitted
  | binwidth
  | value (v : ℝ)

/-- Vertical-error mode of `histpoints`: a string selector handed to
`poisson_limits`, or a pre-supplied pair of error sequences. -/
inductive YerrSpec
  | kind (s : String)
  | pair (lo hi : List ℝ)

/-- Model of `np.linspace(lo, hi, b+1)`, the edges `np.histogram` builds
for an integer bin count `b`. -/
def linspaceEdges (lo hi : ℚ) (b : ℕ) : List ℚ :=
  (List.range (b + 1)).map (fun i : ℕ => lo + (hi - lo) * (i : ℚ) / (b : ℚ))

/-- Resolve a bin specification into histogram edges, as `np.histogram`
does: an integer count becomes equal-width edges over `[min x, max x]`;
explicit edges pass through unchanged. -/
def resolveEdges (x : List ℚ) : BinSpec → List ℚ
  | .count n => linspaceEdges (listMin x) (listMax x) n
  | .edges es => es

/-- Membership test of a value in bin `[lo, hi)`, the last bin being
closed on the right, matching `np.histogram`. -/
def inBin (lo hi : ℚ) (isLast : Bool) (v : ℚ) : Bool :=
  decide (lo ≤ v) && (if isLast then decide (v ≤ hi) else decide (v < hi))

/-- Per-bin counts of `np.histogram(x, bins=edges)`. -/
def histCounts (x : List ℚ) (edges : List ℚ) : List ℕ :=
  (List.range (edges.length - 1)).map (fun i =>
    (x.filter (inBin (edges.getD i 0) (edges.getD (i + 1) 0)
      (i + 2 = edges.length))).length)

/-- The single `width = bins[1] - bins[0]` used by `histpoints` for every
bin, even when the supplied edges are not uniform. -/
def histWidth (x : List ℚ) (bins : BinSpec) : ℚ :=
  (resolveEdges x bins).getD 1 0 - (resolveEdges x bins).getD 0 0

/-- The raw `area = sum(h * width)` of `histpoints`, before
normalization and scaling. -/
def rawArea (x : List ℚ) (bins : BinSpec) : ℚ :=
  ((histCounts x (resolveEdges x bins)).map
    (fun c : ℕ => (c : ℚ) * histWidth x bins)).sum

/-- The bin centers `(bins[:-1] + bins[1:]) / 2` of `histpoints`. -/
def histCenters (x : List ℚ) (bins : BinSpec) : List ℚ :=
  let edges := resolveEdges x bins
  (List.range (edges.length - 1)).map
    (fun i => (edges.getD i 0 + edges.getD (i + 1) 0) / 2)

/-- Result record of `histpoints`: it returns
`(center, (yerr[0], h, yerr[1]), area)` and hands `xerr` to the
renderer; all five numeric pieces are kept here. -/
structure HistResult where
  centers : List ℚ
  lowerError : List ℝ
  values : List ℝ
  upperError : List ℝ
  area : ℝ
  xerr : Option ℝ

/-- Model of `histpoints(x, bins, xerr, yerr, normed, scale)`: bin the
sample, compute the first-bin width, centers and area, resolve vertical
errors (propagating the `ValueError` of an unknown kind), resolve the
horizontal error, then normalize and finally scale. -/
noncomputable def histpoints (ppf : ℝ → ℝ → ℝ) (x : List ℚ) (bins : BinSpec)
    (xerr : XerrSpec) (yerr : YerrSpec) (normed : Bool) (scale : ℝ) :
    Except String HistResult :=
  let h := histCounts x (resolveEdges x bins)
  let area : ℝ := ((rawArea x bins : ℚ) : ℝ)
  let yerrRes : Except String (List ℝ × List ℝ) :=
    match yerr with
    | .kind s => poisson_limits ppf h s (6827 / 10000)
    | .pair lo hi => Except.ok (lo, hi)
  match yerrRes with
  | .error e => Except.error e
  | .ok (ylo, yhi) =>
    let xerrV : Option ℝ :=
      match xerr with
      | .omitted => none
      | .binwidth => some (((histWidth x bins : ℚ) : ℝ) / 2)
      | .value v => some v
    let post : List ℝ × List ℝ × List ℝ × ℝ :=
      if normed then
        (h.map (fun c : ℕ => (c : ℝ) / area), ylo.map (· / area),
         yhi.map (· / area), (1 : ℝ))
      else
        (h.map (fun c : ℕ => (c : ℝ)), ylo, yhi, area)
    Except.ok
      { centers := histCenters x bins
        lowerError := post.2.1.map (· * scale)
        values := post.1.map (· * scale)
        upperError := post.2.2.1.map (· * scale)
        area := post.2.2.2 * scale
        xerr := xerrV }

/-- Pull computation of `plot_pull` (data vs model): residual
`resid_i = values_i - area · f(center_i)`; the standardizing error is the
lower error when `resid_i ≥ 0` and the upper error otherwise
(`err[resid >= 0] = y[0][...]`, `err[resid < 0] = y[2][...]`); a zero
denominator yields NumPy inf/nan, modelled as `none`. -/
noncomputable def computeModelPull (r : HistResult) (f : ℚ → ℝ) :
    List (Option ℝ) :=
  (List.range r.values.length).map (fun i =>
    let resid := r.values.getD i 0 - r.area * f (r.centers.getD i 0)
    let err := if 0 ≤ resid then r.lowerError.getD i 0 else r.upperError.getD i 0
    if err = 0 then none else some (resid / err))

/-- Pull computation of `plot_data_pull` (data vs data): residual
`resid_i = values1_i - values2_i`; the standardizing error is
`sqrt(lowerError1_i² + upperError2_i²)` when `resid_i ≥ 0` and
`sqrt(upperError1_i² + lowerError2_i²)` otherwise; a zero denominator is
modelled as `none`. -/
noncomputable def computeDataPull (r1 r2 : HistResult) : List (Option ℝ) :=
  (List.range r1.values.length).map (fun i =>
    let resid := r1.values.getD i 0 - r2.values.getD i 0
    let err :=
      if 0 ≤ resid then
        Real.sqrt ((r1.lowerError.getD i 0) ^ 2 + (r2.upperError.getD i 0) ^ 2)
      else
        Real.sqrt ((r1.upperError.getD i 0) ^ 2 + (r2.lowerError.getD i 0) ^ 2)
    if err = 0 then none else some (resid / err))

/-! ### Helper lemmas -/

theorem zip_map_eq_map (N : List ℕ) (g : ℕ → ℝ) (f : ℕ → ℝ → ℝ) :
    (N.zip (N.map g)).map (fun p => f p.1 p.2) = N.map (fun n => f n (g n)) := by
  induction N with
  | nil => rfl
  | cons a as ih => simpa using ih

theorem clampZero_map (N : List ℕ) (g : ℕ → ℝ) :
    clampZero N (N.map g) = N.map (fun n => if n = 0 then 0 else g n) :=
  zip_map_eq_map N g (fun n v => if n = 0 then 0 else v)

theorem getD_map_lt {α β : Type} (l : List α) (f : α → β) (i : ℕ)
    (h : i < l.length) (d : β) (e : α) : (l.map f).getD i d = f (l.getD i e) := by
  rw [List.getD_eq_getElem _ _ (by simpa using h), List.getD_eq_getElem _ _ h,
    List.getElem_map]

theorem getD_map_range {α : Type} (n : ℕ) (f : ℕ → α) (i : ℕ) (h : i < n)
    (d : α) : ((List.range n).map f).getD i d = f i := by
  rw [List.getD_eq_getElem _ _ (by simpa using h), List.getElem_map,
    List.getElem_range]

theorem clampZero_nil (lower : List ℝ) : clampZero [] lower = [] := by
  simp [clampZero]

theorem clampZero_cons (n : ℕ) (N : List ℕ) (v : ℝ) (vs : List ℝ) :
    clampZero (n :: N) (v :: vs) = (if n = 0 then 0 else v) :: clampZero N vs := by
  simp [clampZero]

theorem le_foldl_max (as : List ℚ) : ∀ a b : ℚ, a ≤ b → a ≤ as.foldl max b := by
  induction as with
  | nil => intro a b h; simpa using h
  | cons c cs ih =>
    intro a b h
    exact ih a (max b c) (le_trans h (le_max_left b c))

theorem foldl_min_le (as : List ℚ) : ∀ a b : ℚ, b ≤ a → as.foldl min b ≤ a := by
  induction as with
  | nil => intro a b h; simpa using h
  | cons c cs ih =>
    intro a b h
    exact ih a (min b c) (le_trans (min_le_left b c) h)

theorem listMin_le_listMax (x : List ℚ) (h : x ≠ []) : listMin x ≤ listMax x := by
  cases x with
  | nil => exact absurd rfl h
  | cons a as =>
    exact le_trans (foldl_min_le as a a le_rfl) (le_foldl_max as a a le_rfl)

theorem poisson_limits_sqrt_eq (ppf : ℝ → ℝ → ℝ) (N : List ℕ) (conf : ℝ) :
    poisson_limits ppf N "sqrt" conf =
      Except.ok (N.map (fun n : ℕ => Real.sqrt (n : ℝ)),
                 N.map (fun n : ℕ => Real.sqrt (n : ℝ))) := by
  unfold poisson_limits
  rw [if_neg (by decide), if_pos rfl]
  simp only [Except.ok.injEq, Prod.mk.injEq]
  induction N with
  | nil => simp [clampZero_nil]
  | cons a as ih =>
    obtain ⟨ih1, ih2⟩ := ih
    by_cases ha : a = 0
    · simp [clampZero_cons, ha, ih1, ih2]
    · simp [clampZero_cons, ha, ih1, ih2]

theorem rawArea_eq (x : List ℚ) (bins : BinSpec) :
    rawArea x bins =
      ((histCounts x (resolveEdges x bins)).sum : ℚ) * histWidth x bins := by
  rw [rawArea, List.sum_map_mul_right, ← Nat.cast_list_sum]

/-! ### Claim theorems -/

/-- C4: for every count sequence `N`, `poisson_limits` with kind `"sqrt"`
returns `lower_i = upper_i = sqrt(N_i)` exactly at every index, including
indices with `N_i = 0`, for every confidence and every gamma quantile
function (which the sqrt branch never consults). -/
theorem poisson_limits_sqrt_symmetric (ppf : ℝ → ℝ → ℝ) (N : List ℕ) (conf : ℝ) :
    poisson_limits ppf N "sqrt" conf =
      Except.ok (N.map (fun n : ℕ => Real.sqrt (n : ℝ)),
                 N.map (fun n : ℕ => Real.sqrt (n : ℝ))) :=
  poisson_limits_sqrt_eq ppf N conf

/-- C6: for every kind other than `"gamma"` and `"sqrt"`, `poisson_limits`
fails with a `ValueError` whose message names the unsupported kind, for
every count sequence. -/
theorem poisson_limits_unknown_kind (ppf : ℝ → ℝ → ℝ) (N : List ℕ)
    (kind : String) (conf : ℝ) (h1 : kind ≠ "gamma") (h2 : kind ≠ "sqrt") :
    poisson_limits ppf N kind conf =
      Except.error ("Unknown errorbar kind: " ++ kind) := by
  unfold poisson_limits
  rw [if_neg h1, if_neg h2]

/-- Witness for C6 at the concrete kind "pearson". -/
theorem poisson_limits_unknown_kind_witness :
    ("pearson" : String) ≠ "gamma" ∧ ("pearson" : String) ≠ "sqrt" ∧
      poisson_limits (fun _ _ => 0) [0, 1, 2] "pearson" (6827 / 10000) =
        Except.error ("Unknown errorbar kind: " ++ "pearson") :=
  ⟨by decide, by decide,
    poisson_limits_unknown_kind (fun _ _ => 0) [0, 1, 2] "pearson"
      (6827 / 10000) (by decide) (by decide)⟩

/-- C5: for every count sequence, the `"gamma"` branch of `poisson_limits`
returns a lower error clamped to 0 at every zero count, and (assuming the
standard order facts about the external gamma quantile: the lower quantile
of shape `n ≥ 1` is at most `n`, the upper quantile of shape `n + 1` is at
least `n`) both error sequences are non-negative at every index. -/
theorem poisson_limits_gamma_clamped (ppf : ℝ → ℝ → ℝ) (N : List ℕ)
    (conf : ℝ)
    (hlo : ∀ n : ℕ, 1 ≤ n → ppf ((1 - conf) / 2) (n : ℝ) ≤ (n : ℝ))
    (hhi : ∀ n : ℕ, (n : ℝ) ≤ ppf (1 - (1 - conf) / 2) ((n : ℝ) + 1)) :
    ∃ lo hi, poisson_limits ppf N "gamma" conf = Except.ok (lo, hi) ∧
      (∀ i, i < N.length → N.getD i 1 = 0 → lo.getD i 1 = 0) ∧
      (∀ a ∈ lo, 0 ≤ a) ∧ (∀ b ∈ hi, 0 ≤ b) := by
  refine ⟨N.map (fun n : ℕ =>
      (n : ℝ) - if n = 0 then 0 else ppf ((1 - conf) / 2) (n : ℝ)),
    N.map (fun n : ℕ => ppf (1 - (1 - conf) / 2) ((n : ℝ) + 1) - (n : ℝ)),
    ?_, ?_, ?_, ?_⟩
  · unfold poisson_limits
    rw [if_pos rfl]
    simp only [Except.ok.injEq, Prod.mk.injEq]
    induction N with
    | nil => simp [clampZero_nil]
    | cons a as ih =>
      obtain ⟨ih1, ih2⟩ := ih
      by_cases ha : a = 0
      · simp [clampZero_cons, ha, ih1, ih2]
      · simp [clampZero_cons, ha, ih1, ih2]
  · intro i hi hzero
    rw [getD_map_lt N _ i hi _ 1, hzero]
    simp
  · intro a ha
    obtain ⟨n, _, rfl⟩ := List.mem_map.mp ha
    by_cases hn : n = 0
    · simp [hn]
    · rw [if_neg hn]
      have := hlo n (Nat.one_le_iff_ne_zero.mpr hn)
      linarith
  · intro b hb
    obtain ⟨n, _, rfl⟩ := List.mem_map.mp hb
    have := hhi n
    linarith

/-- Witness for C5: a concrete quantile stand-in satisfying the two order
facts, applied at the counts `[0, 3]`. -/
theorem poisson_limits_gamma_clamped_witness :
    (∀ n : ℕ, 1 ≤ n →
      (fun p k => if p ≤ (1 : ℝ) / 2 then 0 else k + 1)
        ((1 - 6827 / 10000 : ℝ) / 2) (n : ℝ) ≤ (n : ℝ)) ∧
    (∀ n : ℕ, (n : ℝ) ≤
      (fun p k => if p ≤ (1 : ℝ) / 2 then 0 else k + 1)
        (1 - (1 - 6827 / 10000 : ℝ) / 2) ((n : ℝ) + 1)) ∧
    (∃ lo hi,
      poisson_limits (fun p k => if p ≤ (1 : ℝ) / 2 then 0 else k + 1)
          [0, 3] "gamma" (6827 / 10000) = Except.ok (lo, hi) ∧
        (∀ i, i < ([0, 3] : List ℕ).length →
          ([0, 3] : List ℕ).getD i 1 = 0 → lo.getD i 1 = 0) ∧
        (∀ a ∈ lo, 0 ≤ a) ∧ (∀ b ∈ hi, 0 ≤ b)) := by
  have hlo : ∀ n : ℕ, 1 ≤ n →
      (fun p k => if p ≤ (1 : ℝ) / 2 then 0 else k + 1)
        ((1 - 6827 / 10000 : ℝ) / 2) (n : ℝ) ≤ (n : ℝ) := by
    intro n _
    simp only []
    rw [if_pos (by norm_num)]
    exact Nat.cast_nonneg n
  have hhi : ∀ n : ℕ, (n : ℝ) ≤
      (fun p k => if p ≤ (1 : ℝ) / 2 then 0 else k + 1)
        (1 - (1 - 6827 / 10000 : ℝ) / 2) ((n : ℝ) + 1) := by
    intro n
    simp only []
    rw [if_neg (by norm_num)]
    linarith
  exact ⟨hlo, hhi,
    poisson_limits_gamma_clamped (fun p k => if p ≤ (1 : ℝ) / 2 then 0 else k + 1)
      [0, 3] (6827 / 10000) hlo hhi⟩

/-- C3 counterexample: the sample `[0, 1, 9, 10]` is non-degenerate
(length 4, not all equal, interquartile range `17/2 ≠ 0`), yet
`calc_nbins` returns 0, outside the claimed range `[1, 150]`: the
Freedman-Diaconis estimate is `10·4^(1/3)/17 ≈ 0.93`, and the floor of
its minimum with 150 is 0. -/
theorem estimate_bin_count_cex :
    2 ≤ ([0, 1, 9, 10] : List ℚ).length ∧
    listMin [0, 1, 9, 10] ≠ listMax [0, 1, 9, 10] ∧
    percentile [0, 1, 9, 10] 75 - percentile [0, 1, 9, 10] 25 ≠ 0 ∧
    calc_nbins [0, 1, 9, 10] 150 = 0 := by
  have h25 : percentile [0, 1, 9, 10] 25 = 3 / 4 := by
    norm_num [percentile, List.insertionSort, List.orderedInsert, List.getD]
  have h75 : percentile [0, 1, 9, 10] 75 = 37 / 4 := by
    norm_num [percentile, List.insertionSort, List.orderedInsert, List.getD,
      show Int.toNat 2 = 2 from rfl]
  have hmax : listMax [0, 1, 9, 10] = 10 := by decide
  have hmin : listMin [0, 1, 9, 10] = 0 := by decide
  refine ⟨by norm_num, by rw [hmin, hmax]; norm_num, by rw [h25, h75]; norm_num, ?_⟩
  unfold calc_nbins
  rw [h25, h75, hmax, hmin]
  rw [show ((10 - 0 : ℚ) : ℝ) = 10 by norm_num,
    show ((37 / 4 - 3 / 4 : ℚ) : ℝ) = 17 / 2 by push_cast; norm_num,
    show (([0, 1, 9, 10] : List ℚ).length : ℝ) = 4 by norm_num,
    Real.rpow_neg (by norm_num : (0 : ℝ) ≤ 4)]
  have ha_pos : 0 < (4 : ℝ) ^ ((1 / 3 : ℝ)) := Real.rpow_pos_of_pos (by norm_num) _
  have ha3 : ((4 : ℝ) ^ ((1 / 3 : ℝ))) ^ (3 : ℕ) = 4 := by
    rw [← Real.rpow_natCast ((4 : ℝ) ^ ((1 / 3 : ℝ))) 3,
      ← Real.rpow_mul (by norm_num : (0 : ℝ) ≤ 4)]
    norm_num
  have ha_lt : (4 : ℝ) ^ ((1 / 3 : ℝ)) < 17 / 10 := by
    by_contra hcon
    push_neg at hcon
    have h3 : ((17 : ℝ) / 10) ^ (3 : ℕ) ≤ ((4 : ℝ) ^ ((1 / 3 : ℝ))) ^ (3 : ℕ) :=
      pow_le_pow_left₀ (by norm_num) hcon 3
    rw [ha3] at h3
    norm_num at h3
  have hval : (10 : ℝ) / (2 * ((4 : ℝ) ^ ((1 / 3 : ℝ)))⁻¹ * (17 / 2)) =
      (4 : ℝ) ^ ((1 / 3 : ℝ)) * (10 / 17) := by
    field_simp
    ring
  simp only [hval]
  have h1 : (4 : ℝ) ^ ((1 / 3 : ℝ)) * (10 / 17) < 1 := by
    have := mul_lt_mul_of_pos_right ha_lt (by norm_num : (0 : ℝ) < 10 / 17)
    norm_num at this
    linarith
  rw [min_eq_left
    (by push_cast; linarith : (4 : ℝ) ^ ((1 / 3 : ℝ)) * (10 / 17) ≤ ((150 : ℕ) : ℝ))]
  rw [Int.floor_eq_zero_iff]
  constructor
  · positivity
  · exact h1

/-- C3 amended: for every sample of length at least 2 with a positive
interquartile range and every maximum, `calc_nbins` returns an integer in
the closed range `[0, maximum]` (the lower end 0 is attained, so the
claimed lower bound 1 does not hold). -/
theorem estimate_bin_count_in_range (x : List ℚ) (maximum : ℕ)
    (hlen : 2 ≤ x.length)
    (hiqr : percentile x 25 < percentile x 75) :
    0 ≤ calc_nbins x maximum ∧ calc_nbins x maximum ≤ (maximum : ℤ) := by
  have hx : x ≠ [] := by
    intro hnil
    rw [hnil] at hlen
    norm_num at hlen
  have hminmax : ((listMin x : ℚ) : ℝ) ≤ ((listMax x : ℚ) : ℝ) := by
    exact_mod_cast listMin_le_listMax x hx
  have hrange : (0 : ℝ) ≤ ((listMax x - listMin x : ℚ) : ℝ) := by
    push_cast
    push_cast at hminmax
    linarith
  have hiqr2 : (0 : ℝ) < ((percentile x 75 - percentile x 25 : ℚ) : ℝ) := by
    have h0 : (0 : ℚ) < percentile x 75 - percentile x 25 := by linarith
    exact_mod_cast h0
  have hlpos : (0 : ℝ) < (x.length : ℝ) := by
    have h0 : 0 < x.length := lt_of_lt_of_le (by norm_num) hlen
    exact_mod_cast h0
  have hpow : (0 : ℝ) < (x.length : ℝ) ^ (-(1 / 3) : ℝ) :=
    Real.rpow_pos_of_pos hlpos _
  have hden : (0 : ℝ) < 2 * (x.length : ℝ) ^ (-(1 / 3) : ℝ) *
      ((percentile x 75 - percentile x 25 : ℚ) : ℝ) :=
    mul_pos (mul_pos (by norm_num) hpow) hiqr2
  have hn : (0 : ℝ) ≤ ((listMax x - listMin x : ℚ) : ℝ) /
      (2 * (x.length : ℝ) ^ (-(1 / 3) : ℝ) *
        ((percentile x 75 - percentile x 25 : ℚ) : ℝ)) :=
    div_nonneg hrange hden.le
  unfold calc_nbins
  constructor
  · exact Int.floor_nonneg.mpr (le_min hn (by positivity))
  · calc ⌊min (((listMax x - listMin x : ℚ) : ℝ) /
          (2 * (x.length : ℝ) ^ (-(1 / 3) : ℝ) *
            ((percentile x 75 - percentile x 25 : ℚ) : ℝ))) ((maximum : ℕ) : ℝ)⌋
          ≤ ⌊((maximum : ℕ) : ℝ)⌋ := Int.floor_le_floor (min_le_right _ _)
      _ = (maximum : ℤ) := Int.floor_natCast maximum

/-- Witness for the amended C3 at the sample `[0, 1]` with maximum 150. -/
theorem estimate_bin_count_in_range_witness :
    2 ≤ ([0, 1] : List ℚ).length ∧
    percentile [0, 1] 25 < percentile [0, 1] 75 ∧
    (0 ≤ calc_nbins [0, 1] 150 ∧ calc_nbins [0, 1] 150 ≤ (150 : ℤ)) := by
  have h1 : 2 ≤ ([0, 1] : List ℚ).length := by norm_num
  have h2 : percentile [0, 1] 25 < percentile [0, 1] 75 := by
    norm_num [percentile, List.insertionSort, List.orderedInsert, List.getD]
  exact ⟨h1, h2, estimate_bin_count_in_range [0, 1] 150 h1 h2⟩

/-- C1 counterexample: a one-bin histogram result with lower error 1,
value 3, upper error 2, area 1, against the constant model 1.  The
residual is `3 - 1·1 = 2 ≥ 0`; the code divides by the LOWER error
(pull `2/1 = 2`), not by the upper error as claimed (which would give
`2/2 = 1`). -/
theorem plot_pull_sign_cex :
    computeModelPull ⟨[0], [1], [3], [2], 1, none⟩ (fun _ => 1) = [some 2] ∧
    computeModelPull ⟨[0], [1], [3], [2], 1, none⟩ (fun _ => 1) ≠
      [some ((3 - 1 * 1) / 2)] := by
  have h : computeModelPull ⟨[0], [1], [3], [2], 1, none⟩ (fun _ => 1) =
      [some 2] := by
    unfold computeModelPull
    norm_num [List.range_succ]
  refine ⟨h, ?_⟩
  rw [h]
  intro hcon
  have := List.head_eq_of_cons_eq hcon
  rw [Option.some.injEq] at this
  norm_num at this

/-- C1 amended: in `plot_pull`, a residual `r_i ≥ 0` is standardized by
the LOWER error of the data's interval and a residual `r_i < 0` by the
UPPER error (the converse of the claim); the pull is `r_i / err_i`,
defined whenever the selected error is nonzero. -/
theorem computeModelPull_sign (r : HistResult) (f : ℚ → ℝ) (i : ℕ)
    (hi : i < r.values.length) :
    (0 ≤ r.values.getD i 0 - r.area * f (r.centers.getD i 0) →
      r.lowerError.getD i 0 ≠ 0 →
      (computeModelPull r f).getD i none =
        some ((r.values.getD i 0 - r.area * f (r.centers.getD i 0)) /
          r.lowerError.getD i 0)) ∧
    (r.values.getD i 0 - r.area * f (r.centers.getD i 0) < 0 →
      r.upperError.getD i 0 ≠ 0 →
      (computeModelPull r f).getD i none =
        some ((r.values.getD i 0 - r.area * f (r.centers.getD i 0)) /
          r.upperError.getD i 0)) := by
  have key : (computeModelPull r f).getD i none =
      (let resid := r.values.getD i 0 - r.area * f (r.centers.getD i 0)
       let err := if 0 ≤ resid then r.lowerError.getD i 0
                  else r.upperError.getD i 0
       if err = 0 then none else some (resid / err)) := by
    unfold computeModelPull
    exact getD_map_range _ _ i hi none
  simp only [] at key
  constructor
  · intro hres hne
    rw [key, if_pos hres, if_neg hne]
  · intro hres hne
    rw [key, if_neg (not_le.mpr hres), if_neg hne]

/-- Witness for the amended C1 at the counterexample's input: the
residual 2 is non-negative and is divided by the lower error 1. -/
theorem computeModelPull_sign_witness :
    0 < (⟨[0], [1], [3], [2], 1, none⟩ : HistResult).values.length ∧
    ((0 : ℝ) ≤ (3 : ℝ) - 1 * 1 → (1 : ℝ) ≠ 0 →
      (computeModelPull ⟨[0], [1], [3], [2], 1, none⟩ (fun _ => 1)).getD 0 none =
        some (((3 : ℝ) - 1 * 1) / 1)) := by
  have h := computeModelPull_sign ⟨[0], [1], [3], [2], 1, none⟩ (fun _ => 1) 0
    (by norm_num)
  refine ⟨by norm_num, fun hres hne => ?_⟩
  have := h.1
  simp only [List.getD] at this ⊢
  exact this hres hne

/-- C2 counterexample: histogram results with `lowerError1 = 3`,
`upperError1 = 1`, `lowerError2 = 0`, `upperError2 = 4` and residual
`2 - 1 = 1 ≥ 0`.  The code divides by
`sqrt(lowerError1² + upperError2²) = sqrt(25) = 5` (pull `1/5`), not by
`sqrt(upperError1² + lowerError2²) = 1` as claimed (pull `1`). -/
theorem plot_data_pull_sign_cex :
    computeDataPull ⟨[0], [3], [2], [1], 1, none⟩ ⟨[0], [0], [1], [4], 1, none⟩ =
      [some (1 / 5)] ∧
    computeDataPull ⟨[0], [3], [2], [1], 1, none⟩ ⟨[0], [0], [1], [4], 1, none⟩ ≠
      [some 1] := by
  have h25 : Real.sqrt (25 : ℝ) = 5 := by
    rw [show (25 : ℝ) = 5 ^ 2 by norm_num]
    exact Real.sqrt_sq (by norm_num)
  have h : computeDataPull ⟨[0], [3], [2], [1], 1, none⟩
      ⟨[0], [0], [1], [4], 1, none⟩ = [some (1 / 5)] := by
    unfold computeDataPull
    norm_num [List.range_succ, h25]
  refine ⟨h, ?_⟩
  rw [h]
  intro hcon
  have := List.head_eq_of_cons_eq hcon
  rw [Option.some.injEq] at this
  norm_num at this

/-- C2 amended: in `plot_data_pull`, a residual `r_i ≥ 0` is standardized
by `sqrt(lowerError1_i² + upperError2_i²)` and a residual `r_i < 0` by
`sqrt(upperError1_i² + lowerError2_i²)` (the converse of the claim); the
pull is `r_i / err_i`, defined whenever the selected error is nonzero. -/
theorem computeDataPull_sign (r1 r2 : HistResult) (i : ℕ)
    (hi : i < r1.values.length) :
    (0 ≤ r1.values.getD i 0 - r2.values.getD i 0 →
      Real.sqrt ((r1.lowerError.getD i 0) ^ 2 + (r2.upperError.getD i 0) ^ 2) ≠ 0 →
      (computeDataPull r1 r2).getD i none =
        some ((r1.values.getD i 0 - r2.values.getD i 0) /
          Real.sqrt ((r1.lowerError.getD i 0) ^ 2 + (r2.upperError.getD i 0) ^ 2))) ∧
    (r1.values.getD i 0 - r2.values.getD i 0 < 0 →
      Real.sqrt ((r1.upperError.getD i 0) ^ 2 + (r2.lowerError.getD i 0) ^ 2) ≠ 0 →
      (computeDataPull r1 r2).getD i none =
        some ((r1.values.getD i 0 - r2.values.getD i 0) /
          Real.sqrt ((r1.upperError.getD i 0) ^ 2 + (r2.lowerError.getD i 0) ^ 2))) := by
  have key : (computeDataPull r1 r2).getD i none =
      (let resid := r1.values.getD i 0 - r2.values.getD i 0
       let err :=
         if 0 ≤ resid then
           Real.sqrt ((r1.lowerError.getD i 0) ^ 2 + (r2.upperError.getD i 0) ^ 2)
         else
           Real.sqrt ((r1.upperError.getD i 0) ^ 2 + (r2.lowerError.getD i 0) ^ 2)
       if err = 0 then none else some (resid / err)) := by
    unfold computeDataPull
    exact getD_map_range _ _ i hi none
  simp only [] at key
  constructor
  · intro hres hne
    rw [key, if_pos hres, if_neg hne]
  · intro hres hne
    rw [key, if_neg (not_le.mpr hres), if_neg hne]

/-- Witness for the amended C2 at the counterexample's input. -/
theorem computeDataPull_sign_witness :
    0 < (⟨[0], [3], [2], [1], 1, none⟩ : HistResult).values.length ∧
    ((0 : ℝ) ≤ (2 : ℝ) - 1 → Real.sqrt ((3 : ℝ) ^ 2 + (4 : ℝ) ^ 2) ≠ 0 →
      (computeDataPull ⟨[0], [3], [2], [1], 1, none⟩
        ⟨[0], [0], [1], [4], 1, none⟩).getD 0 none =
        some (((2 : ℝ) - 1) / Real.sqrt ((3 : ℝ) ^ 2 + (4 : ℝ) ^ 2))) := by
  have h := computeDataPull_sign ⟨[0], [3], [2], [1], 1, none⟩
    ⟨[0], [0], [1], [4], 1, none⟩ 0 (by norm_num)
  refine ⟨by norm_num, fun hres hne => ?_⟩
  have := h.1
  simp only [List.getD] at this ⊢
  exact this hres hne

/-- C9 counterexample: the histogram built from the sample `[0,0,3,3]`
with edges `[0,1,2,3]` and sqrt errors has a zero-count middle bin with
zero lower and upper error; comparing this result against itself, the
middle bin's pull is the NumPy nan (modelled `none`), not zero. -/
theorem data_pull_identical_cex :
    ∃ r, histpoints (fun _ _ => 0) [0, 0, 3, 3]
        (BinSpec.edges [0, 1, 2, 3]) XerrSpec.omitted
        (YerrSpec.kind "sqrt") false 1 = Except.ok r ∧
      (computeDataPull r r).getD 1 (some 0) = none := by
  refine ⟨⟨histCenters [0, 0, 3, 3] (BinSpec.edges [0, 1, 2, 3]),
    [Real.sqrt 2, 0, Real.sqrt 2], [2, 0, 2], [Real.sqrt 2, 0, Real.sqrt 2],
    4, none⟩, ?_, ?_⟩
  · have hc : histCounts [0, 0, 3, 3] [0, 1, 2, 3] = [2, 0, 2] := by decide
    have hra : rawArea [0, 0, 3, 3] (BinSpec.edges [0, 1, 2, 3]) = 4 := by
      rw [rawArea, show resolveEdges [0, 0, 3, 3]
        (BinSpec.edges [0, 1, 2, 3]) = [0, 1, 2, 3] from rfl, hc]
      norm_num [histWidth, resolveEdges]
    unfold histpoints
    rw [show resolveEdges [0, 0, 3, 3]
        (BinSpec.edges [0, 1, 2, 3]) = [0, 1, 2, 3] from rfl, hc, hra]
    simp only [poisson_limits_sqrt_eq]
    norm_num
  · unfold computeDataPull
    rw [getD_map_range _ _ 1 (by norm_num) (some 0)]
    norm_num

/-- C9 amended: for two identical histogram results, the data-vs-data
pull is zero in every bin in which the lower or the upper error is
nonzero; in a bin where both vanish the denominator is zero and the pull
is the NumPy nan (modelled `none`) rather than zero. -/
theorem computeDataPull_self (r : HistResult) (i : ℕ)
    (hi : i < r.values.length)
    (hne : r.lowerError.getD i 0 ≠ 0 ∨ r.upperError.getD i 0 ≠ 0) :
    (computeDataPull r r).getD i none = some 0 := by
  have key : (computeDataPull r r).getD i none =
      (let resid := r.values.getD i 0 - r.values.getD i 0
       let err :=
         if 0 ≤ resid then
           Real.sqrt ((r.lowerError.getD i 0) ^ 2 + (r.upperError.getD i 0) ^ 2)
         else
           Real.sqrt ((r.upperError.getD i 0) ^ 2 + (r.lowerError.getD i 0) ^ 2)
       if err = 0 then none else some (resid / err)) := by
    unfold computeDataPull
    exact getD_map_range _ _ i hi none
  simp only [sub_self] at key
  rw [key, if_pos le_rfl]
  have hpos : 0 < (r.lowerError.getD i 0) ^ 2 + (r.upperError.getD i 0) ^ 2 := by
    rcases hne with h | h
    · have := pow_two_pos_of_ne_zero h
      have := sq_nonneg (r.upperError.getD i 0)
      linarith
    · have := pow_two_pos_of_ne_zero h
      have := sq_nonneg (r.lowerError.getD i 0)
      linarith
  rw [if_neg (by positivity), zero_div]

/-- Witness for the amended C9: a concrete one-bin histogram result with
a nonzero upper error compared against itself gives pull zero. -/
theorem computeDataPull_self_witness :
    0 < (⟨[0], [0], [5], [2], 1, none⟩ : HistResult).values.length ∧
    ((⟨[0], [0], [5], [2], 1, none⟩ : HistResult).lowerError.getD 0 0 ≠ 0 ∨
      (⟨[0], [0], [5], [2], 1, none⟩ : HistResult).upperError.getD 0 0 ≠ 0) ∧
    (computeDataPull ⟨[0], [0], [5], [2], 1, none⟩
      ⟨[0], [0], [5], [2], 1, none⟩).getD 0 none = some 0 := by
  refine ⟨by norm_num, Or.inr (by norm_num), ?_⟩
  exact computeDataPull_self ⟨[0], [0], [5], [2], 1, none⟩ 0 (by norm_num)
    (Or.inr (by norm_num))

/-- C7 counterexample: with `normalized = true` but `scale = 2`, the area
returned by `histpoints` is 2, not 1: the code sets `area = 1` on
normalization and then multiplies the area by the scale factor. -/
theorem normalized_area_cex :
    ∃ r, histpoints (fun _ _ => 0) [0, 1] (BinSpec.edges [0, 1, 2])
        XerrSpec.omitted (YerrSpec.pair [0, 0] [0, 0]) true 2 = Except.ok r ∧
      r.area = 2 ∧ r.area ≠ 1 := by
  refine ⟨_, rfl, ?_, ?_⟩
  · show (1 : ℝ) * 2 = 2
    norm_num
  · show (1 : ℝ) * 2 ≠ 1
    norm_num

/-- C7 amended: for every sample, bin specification with nonzero raw
area, error mode and scale `k`, `histpoints` with `normalized = true`
returns `area = k` and `sum(values_i · binWidth) = k`; the claimed
round-trip to exactly 1 holds only for the default `scale = 1`, since the
scale multiplication happens after the area is reset to 1. -/
theorem histpoints_normalized_area (ppf : ℝ → ℝ → ℝ) (x : List ℚ)
    (bins : BinSpec) (xerr : XerrSpec) (yerr : YerrSpec) (scale : ℝ)
    (r : HistResult) (harea : rawArea x bins ≠ 0)
    (hok : histpoints ppf x bins xerr yerr true scale = Except.ok r) :
    r.area = scale ∧
    r.values.sum * ((histWidth x bins : ℚ) : ℝ) = scale := by
  have hfields : r.values = ((histCounts x (resolveEdges x bins)).map
        (fun c : ℕ => (c : ℝ) / ((rawArea x bins : ℚ) : ℝ))).map (· * scale) ∧
      r.area = 1 * scale := by
    unfold histpoints at hok
    rcases yerr with s | ⟨lo, hi⟩
    · cases hP : poisson_limits ppf (histCounts x (resolveEdges x bins)) s
          (6827 / 10000) with
      | error e =>
        simp only [hP] at hok
        exact absurd hok (by simp)
      | ok p =>
        obtain ⟨ylo, yhi⟩ := p
        simp only [hP, Except.ok.injEq] at hok
        rw [← hok]
        simp
    · simp only [Except.ok.injEq] at hok
      rw [← hok]
      simp
  obtain ⟨hvals, harea2⟩ := hfields
  have hAne : ((rawArea x bins : ℚ) : ℝ) ≠ 0 := by
    exact_mod_cast harea
  have hA : ((rawArea x bins : ℚ) : ℝ) =
      (((histCounts x (resolveEdges x bins)).sum : ℕ) : ℝ) *
        ((histWidth x bins : ℚ) : ℝ) := by
    rw [rawArea_eq, Rat.cast_mul, Rat.cast_natCast]
  have hS : (((histCounts x (resolveEdges x bins)).sum : ℕ) : ℝ) ≠ 0 := by
    intro h0
    rw [hA, h0, zero_mul] at hAne
    exact hAne rfl
  have hW : ((histWidth x bins : ℚ) : ℝ) ≠ 0 := by
    intro h0
    rw [hA, h0, mul_zero] at hAne
    exact hAne rfl
  have hsum : r.values.sum =
      (((histCounts x (resolveEdges x bins)).sum : ℕ) : ℝ) *
        (((rawArea x bins : ℚ) : ℝ))⁻¹ * scale := by
    rw [hvals, List.map_map]
    rw [show ((fun v => v * scale) ∘
        (fun c : ℕ => (c : ℝ) / ((rawArea x bins : ℚ) : ℝ))) =
        (fun c : ℕ => (c : ℝ) * ((((rawArea x bins : ℚ) : ℝ))⁻¹ * scale)) by
      funext c
      rw [Function.comp_apply, div_eq_mul_inv, mul_assoc]]
    rw [List.sum_map_mul_right, ← Nat.cast_list_sum, mul_assoc]
  refine ⟨by rw [harea2, one_mul], ?_⟩
  rw [hsum, hA]
  generalize (((histCounts x (resolveEdges x bins)).sum : ℕ) : ℝ) = S at hS ⊢
  generalize ((histWidth x bins : ℚ) : ℝ) = W at hW ⊢
  field_simp
  ring

/-- Witness for the amended C7: the sample `[0, 1]` with edges `[0,1,2]`
(raw area 2) and `scale = 3` gives `area = 3` and summed density 3. -/
theorem histpoints_normalized_area_witness :
    rawArea [0, 1] (BinSpec.edges [0, 1, 2]) ≠ 0 ∧
    ∃ r, histpoints (fun _ _ => 0) [0, 1] (BinSpec.edges [0, 1, 2])
        XerrSpec.omitted (YerrSpec.pair [0, 0] [0, 0]) true 3 = Except.ok r ∧
      (r.area = 3 ∧
       r.values.sum * ((histWidth [0, 1] (BinSpec.edges [0, 1, 2]) : ℚ) : ℝ) = 3) := by
  have hra : rawArea [0, 1] (BinSpec.edges [0, 1, 2]) ≠ 0 := by
    rw [rawArea_eq, show histCounts [0, 1]
      (resolveEdges [0, 1] (BinSpec.edges [0, 1, 2])) = [1, 1] from by decide]
    norm_num [histWidth, resolveEdges, List.getD]
  exact ⟨hra, _, rfl, histpoints_normalized_area (fun _ _ => 0) [0, 1]
    (BinSpec.edges [0, 1, 2]) XerrSpec.omitted (YerrSpec.pair [0, 0] [0, 0]) 3 _
    hra rfl⟩

/-- C8: for every sample, bin specification, horizontal and vertical
error mode, normalization flag and scale factor `k`, `histpoints` with
`scale = k` returns exactly the `scale = 1` result with `values`,
`lowerError`, `upperError` each multiplied pointwise by `k` and `area`
multiplied by `k`; the centers (and the horizontal error) are unchanged,
and an error result is the same error. -/
theorem histpoints_scale_linear (ppf : ℝ → ℝ → ℝ) (x : List ℚ) (bins : BinSpec)
    (xerr : XerrSpec) (yerr : YerrSpec) (normed : Bool) (k : ℝ) :
    histpoints ppf x bins xerr yerr normed k =
      Except.map (fun r => { r with
        values := r.values.map (· * k),
        lowerError := r.lowerError.map (· * k),
        upperError := r.upperError.map (· * k),
        area := r.area * k })
      (histpoints ppf x bins xerr yerr normed 1) := by
  unfold histpoints
  rcases yerr with s | ⟨lo, hi⟩
  · cases hP : poisson_limits ppf (histCounts x (resolveEdges x bins)) s
        (6827 / 10000) with
    | error e => simp [hP, Except.map]
    | ok p =>
      obtain ⟨ylo, yhi⟩ := p
      simp [hP, Except.map, List.map_map, Function.comp, mul_one]
  · simp [Except.map, List.map_map, Function.comp, mul_one]

/-- C10: for every sample and every explicit (possibly non-uniform) edge
list, `histpoints` raises no error; it derives the single width
`edges[1] - edges[0]` from the first bin and uses it everywhere: the
area is `(sum of all counts) · (edges[1] - edges[0])` and the
`binwidth` horizontal error is `(edges[1] - edges[0]) / 2`, regardless
of the other bins' actual widths. -/
theorem histpoints_uses_first_bin_width (ppf : ℝ → ℝ → ℝ) (x : List ℚ)
    (es : List ℚ) :
    ∃ r, histpoints ppf x (BinSpec.edges es) XerrSpec.binwidth
        (YerrSpec.kind "gamma") false 1 = Except.ok r ∧
      r.area = (((histCounts x es).sum : ℕ) : ℝ) *
        ((es.getD 1 0 - es.getD 0 0 : ℚ) : ℝ) ∧
      r.xerr = some (((es.getD 1 0 - es.getD 0 0 : ℚ) : ℝ) / 2) := by
  refine ⟨_, rfl, ?_, ?_⟩
  · show ((rawArea x (BinSpec.edges es) : ℚ) : ℝ) * 1 =
      (((histCounts x es).sum : ℕ) : ℝ) * ((es.getD 1 0 - es.getD 0 0 : ℚ) : ℝ)
    rw [mul_one, rawArea_eq, Rat.cast_mul, Rat.cast_natCast]
    rfl
  · rfl

end MatplotlibHep
